import Mathlib

/-!
# Verification of the OpenNotebookLM retrieval pipeline

A shallow embedding, in Lean 4, of the core retrieval-pipeline services of
the OpenNotebookLM backend (`backend/app/services/{rag,chunking,embeddings,
llm,cache}.py`), together with theorems settling the frozen claims about the
natural-language specification of that pipeline.

Modelling conventions:

* Python strings are modelled as `List Char`; Python `str` helpers
  (`str.split()`, `str.strip()`, `str.lower()`, `"sep".join`, slicing) are
  embedded as executable functions on `List Char`.
* Python `int` parameters that are non-negative in every use site are
  modelled as `Nat`; Python's `str(int)` is then `Nat.toDigits 10`,
  i.e. the character data of `Nat.repr`.
* Python `float` scores and weights are modelled as `ℚ`; the float literals
  `0.5`/`0.8` of the source become the rationals `1/2`/`4/5`.
* SHA-256 digests are not re-implemented: the digest is a deterministic
  function of its input string, so two parameter tuples that produce the
  same pre-hash string necessarily produce the same cache key, and claims
  about key collisions are settled on the pre-hash string.
* Fallible external collaborators (the relational store, the cache backend,
  the generation backend, the embedding model) are passed in as explicit
  function arguments; a Python `raise`/`except` boundary is modelled with
  `Except`.
-/

namespace ONLM

/-- Convenience: the character data of a string literal. -/
def chars (s : String) : List Char := s.data

/- ## Python `str(int)`: `Nat.repr` and its injectivity -/

/-- The character list of the decimal representation of a `Nat`, written as a
structurally transparent recursion (most significant digit first).  This is
proved equal to `Nat.toDigits 10`, the function underlying `Nat.repr`. -/
def natChars (n : Nat) : List Char :=
  if h : n < 10 then [Nat.digitChar n]
  else natChars (n / 10) ++ [Nat.digitChar (n % 10)]
decreasing_by exact Nat.div_lt_self (by omega) (by omega)

theorem natChars_of_lt {n : Nat} (h : n < 10) : natChars n = [Nat.digitChar n] := by
  rw [natChars, dif_pos h]

theorem natChars_of_ge {n : Nat} (h : ¬ n < 10) :
    natChars n = natChars (n / 10) ++ [Nat.digitChar (n % 10)] := by
  rw [natChars, dif_neg h]

theorem toDigitsCore_eq_natChars :
    ∀ (fuel n : Nat) (acc : List Char), n < fuel →
      Nat.toDigitsCore 10 fuel n acc = natChars n ++ acc := by
  intro fuel
  induction fuel with
  | zero => intro n acc h; omega
  | succ f ih =>
    intro n acc h
    by_cases h10 : n < 10
    · have hdiv : n / 10 = 0 := Nat.div_eq_of_lt h10
      simp [Nat.toDigitsCore, hdiv, natChars_of_lt h10, Nat.mod_eq_of_lt h10]
    · have hdiv : n / 10 ≠ 0 := by
        intro hc
        exact h10 (by omega : n < 10)
      have hlt : n / 10 < f := by
        have hd : n / 10 < n := Nat.div_lt_self (by omega) (by omega)
        omega
      simp only [Nat.toDigitsCore, hdiv, if_false]
      rw [ih (n / 10) _ hlt, natChars_of_ge h10]
      simp

/-- `str(n)` for a non-negative Python int, as a character list. -/
def pyStrNat (n : Nat) : List Char := Nat.toDigits 10 n

theorem pyStrNat_eq_natChars (n : Nat) : pyStrNat n = natChars n := by
  have := toDigitsCore_eq_natChars (n + 1) n [] (Nat.lt_succ_self n)
  simpa [pyStrNat, Nat.toDigits] using this

/-- Numeric value of a decimal digit character. -/
def digitVal (c : Char) : Nat := c.toNat - '0'.toNat

theorem digitVal_digitChar {n : Nat} (h : n < 10) :
    digitVal (Nat.digitChar n) = n := by
  interval_cases n <;> rfl

theorem decode_natChars :
    ∀ (n a : Nat),
      List.foldl (fun acc c => acc * 10 + digitVal c) a (natChars n)
        = a * 10 ^ (natChars n).length + n := by
  intro n
  induction n using Nat.strong_induction_on with
  | _ n ih =>
    intro a
    by_cases h10 : n < 10
    · rw [natChars_of_lt h10]
      simp [digitVal_digitChar h10]
    · rw [natChars_of_ge h10]
      have hlt : n / 10 < n := Nat.div_lt_self (by omega) (by omega)
      rw [List.foldl_append, ih (n / 10) hlt a]
      simp [digitVal_digitChar (Nat.mod_lt n (by omega : 0 < 10))]
      rw [Nat.pow_succ]
      have : a * (10 ^ (natChars (n / 10)).length * 10)
            = a * 10 ^ (natChars (n / 10)).length * 10 := by ring
      rw [this]
      have hdm := Nat.div_add_mod n 10
      omega

theorem natChars_injective : Function.Injective natChars := by
  intro m n h
  have hm := decode_natChars m 0
  have hn := decode_natChars n 0
  rw [h] at hm
  omega

theorem pyStrNat_injective : Function.Injective pyStrNat := by
  intro m n h
  apply natChars_injective
  rwa [← pyStrNat_eq_natChars, ← pyStrNat_eq_natChars]

theorem digitChar_ne_bar {n : Nat} (h : n < 10) : Nat.digitChar n ≠ '|' := by
  interval_cases n <;> decide

theorem bar_not_mem_natChars (n : Nat) : '|' ∉ natChars n := by
  induction n using Nat.strong_induction_on with
  | _ n ih =>
    by_cases h10 : n < 10
    · rw [natChars_of_lt h10]
      simp [(digitChar_ne_bar h10).symm]
    · rw [natChars_of_ge h10]
      have hlt : n / 10 < n := Nat.div_lt_self (by omega) (by omega)
      simp only [List.mem_append, List.mem_singleton]
      push_neg
      exact ⟨ih (n / 10) hlt,
        (digitChar_ne_bar (Nat.mod_lt n (by omega : 0 < 10))).symm⟩

theorem bar_not_mem_pyStrNat (n : Nat) : '|' ∉ pyStrNat n := by
  rw [pyStrNat_eq_natChars]; exact bar_not_mem_natChars n

/- ## `RAGService._generate_cache_key` (`backend/app/services/rag.py`) -/

/-- The parameter tuple of `RAGService._generate_cache_key`.

`top_k` and `max_tokens` are Python ints (non-negative in every use site),
modelled as `Nat`.  `temperature` is a Python float; the key derivation only
ever uses `str(temperature)`, and Python's `str` is injective on floats, so
the field carries that decimal rendering directly (e.g. `"0.7"`). -/
structure QueryParams where
  query : List Char
  projectId : Option (List Char)
  topK : Nat
  temperature : List Char
  maxTokens : Nat
  includeSources : Bool
deriving DecidableEq, Repr

/-- Python's `str` on an `Optional[str]`: `str(None) == "None"`. -/
def pyStrOpt : Option (List Char) → List Char
  | none => chars "None"
  | some s => s

/-- Python's `str` on a bool: `"True"` / `"False"`. -/
def pyStrBool : Bool → List Char
  | true => chars "True"
  | false => chars "False"

/-- Python's `"|".join(parts)`. -/
def joinBar : List (List Char) → List Char
  | [] => []
  | [s] => s
  | s :: t :: rest => s ++ '|' :: joinBar (t :: rest)

/-- The `key_string` assembled by `RAGService._generate_cache_key` before it
is hashed:
`"|".join([query, str(project_id), str(top_k), str(temperature),
str(max_tokens), str(include_sources)])`.
The source returns `hashlib.sha256(key_string.encode()).hexdigest()`; since
the digest is a function of `key_string`, two parameter tuples with equal
`key_string`s receive equal cache keys. -/
def generateCacheKeyString (p : QueryParams) : List Char :=
  joinBar [p.query, pyStrOpt p.projectId, pyStrNat p.topK,
           p.temperature, pyStrNat p.maxTokens, pyStrBool p.includeSources]

/-- Splitting at the first bar is unambiguous when the first field of each
side is bar-free. -/
theorem joinBar_head_cancel :
    ∀ (x y u v : List Char), '|' ∉ x → '|' ∉ y →
      x ++ '|' :: u = y ++ '|' :: v → x = y ∧ u = v := by
  intro x
  induction x with
  | nil =>
    intro y u v _ hy h
    cases y with
    | nil => simpa using h
    | cons c ys =>
      simp only [List.nil_append, List.cons_append, List.cons.injEq] at h
      exact absurd (h.1 ▸ List.mem_cons_self c ys) (by simp_all)
  | cons c xs ih =>
    intro y u v hx hy h
    cases y with
    | nil =>
      simp only [List.cons_append, List.nil_append, List.cons.injEq] at h
      exact absurd (h.1 ▸ List.mem_cons_self c xs) (by simp_all)
    | cons d ys =>
      simp only [List.cons_append, List.cons.injEq] at h
      obtain ⟨hcd, hrest⟩ := h
      have := ih ys u v (fun hm => hx (List.mem_cons_of_mem c hm))
        (fun hm => hy (List.mem_cons_of_mem d hm)) hrest
      exact ⟨by rw [hcd, this.1], this.2⟩

theorem joinBar_injective_barFree :
    ∀ (a b : List (List Char)), a.length = b.length →
      (∀ s ∈ a, '|' ∉ s) → (∀ s ∈ b, '|' ∉ s) →
      joinBar a = joinBar b → a = b := by
  intro a
  induction a with
  | nil =>
    intro b hlen _ _ _
    cases b with
    | nil => rfl
    | cons _ _ => simp at hlen
  | cons s rest ih =>
    intro b hlen ha hb h
    cases b with
    | nil => simp at hlen
    | cons t brest =>
      cases rest with
      | nil =>
        cases brest with
        | nil => simpa [joinBar] using h
        | cons _ _ => simp at hlen
      | cons r rrest =>
        cases brest with
        | nil => simp at hlen
        | cons q qrest =>
          simp only [joinBar] at h
          have hs : '|' ∉ s := ha s (List.mem_cons_self _ _)
          have ht : '|' ∉ t := hb t (List.mem_cons_self _ _)
          obtain ⟨hst, hrest⟩ := joinBar_head_cancel s t _ _ hs ht h
          have htail := ih (q :: qrest) (by simpa using hlen)
            (fun x hx => ha x (List.mem_cons_of_mem s hx))
            (fun x hx => hb x (List.mem_cons_of_mem t hx)) hrest
          rw [hst, htail]

/-- C1 counterexample input A: `query="a"`, `project_id="b|1"`. -/
def c1ParamsA : QueryParams :=
  { query := chars "a", projectId := some (chars "b|1"), topK := 1,
    temperature := chars "1.0", maxTokens := 1, includeSources := true }

/-- C1 counterexample input B: `query="a|b"`, `project_id="1"`; identical to
`c1ParamsA` in the remaining components. -/
def c1ParamsB : QueryParams :=
  { query := chars "a|b", projectId := some (chars "1"), topK := 1,
    temperature := chars "1.0", maxTokens := 1, includeSources := true }

/-- C1 (counterexample): the parameter tuples `("a", "b|1", 1, 1.0, 1, True)`
and `("a|b", "1", 1, 1.0, 1, True)` differ (both in query text and in
project id), yet `_generate_cache_key` assembles the identical pre-hash
string `"a|b|1|1|1.0|1|True"` for both — so the SHA-256 cache key, a
function of that string, is identical and the two requests share a cached
query response. -/
theorem cacheKey_collision_c1 :
    c1ParamsA ≠ c1ParamsB ∧
      generateCacheKeyString c1ParamsA = generateCacheKeyString c1ParamsB := by
  constructor
  · decide
  · rfl

/-- C1 (amended): if in addition the query text and the project id are
`'|'`-free and the project id is not the literal string `"None"` (which
`str(None)` also produces), then distinct parameter tuples produce distinct
pre-hash key strings, and hence distinct SHA-256 cache keys up to hash
collisions. -/
theorem cacheKey_injective_barFree (p q : QueryParams)
    (hpq : '|' ∉ p.query) (hqq : '|' ∉ q.query)
    (hpp : ∀ s, p.projectId = some s → '|' ∉ s ∧ s ≠ chars "None")
    (hqp : ∀ s, q.projectId = some s → '|' ∉ s ∧ s ≠ chars "None")
    (hpt : '|' ∉ p.temperature) (hqt : '|' ∉ q.temperature)
    (hne : p ≠ q) :
    generateCacheKeyString p ≠ generateCacheKeyString q := by
  intro h
  apply hne
  have hbarP : '|' ∉ pyStrOpt p.projectId := by
    cases hp : p.projectId with
    | none => decide
    | some s => simpa [pyStrOpt] using (hpp s hp).1
  have hbarQ : '|' ∉ pyStrOpt q.projectId := by
    cases hq : q.projectId with
    | none => decide
    | some s => simpa [pyStrOpt] using (hqp s hq).1
  have hbools : ∀ b : Bool, '|' ∉ pyStrBool b := by decide
  have := joinBar_injective_barFree
    [p.query, pyStrOpt p.projectId, pyStrNat p.topK,
     p.temperature, pyStrNat p.maxTokens, pyStrBool p.includeSources]
    [q.query, pyStrOpt q.projectId, pyStrNat q.topK,
     q.temperature, pyStrNat q.maxTokens, pyStrBool q.includeSources]
    rfl
    (by
      intro s hs
      simp only [List.mem_cons, List.not_mem_nil, or_false] at hs
      rcases hs with h1 | h1 | h1 | h1 | h1 | h1 <;> subst h1
      · exact hpq
      · exact hbarP
      · exact bar_not_mem_pyStrNat _
      · exact hpt
      · exact bar_not_mem_pyStrNat _
      · exact hbools _)
    (by
      intro s hs
      simp only [List.mem_cons, List.not_mem_nil, or_false] at hs
      rcases hs with h1 | h1 | h1 | h1 | h1 | h1 <;> subst h1
      · exact hqq
      · exact hbarQ
      · exact bar_not_mem_pyStrNat _
      · exact hqt
      · exact bar_not_mem_pyStrNat _
      · exact hbools _)
    h
  simp only [List.cons.injEq, and_true] at this
  obtain ⟨h1, h2, h3, h4, h5, h6⟩ := this
  have hproj : p.projectId = q.projectId := by
    cases hp : p.projectId with
    | none =>
      cases hq : q.projectId with
      | none => rfl
      | some s =>
        rw [hp, hq] at h2
        exact absurd ((hqp s hq).2) (by simp [pyStrOpt] at h2; simp [h2.symm])
    | some s =>
      cases hq : q.projectId with
      | none =>
        rw [hp, hq] at h2
        exact absurd ((hpp s hp).2) (by simp [pyStrOpt] at h2; simp [h2])
      | some t =>
        rw [hp, hq] at h2
        simp only [pyStrOpt] at h2
        rw [h2]
  have hbool : p.includeSources = q.includeSources := by
    cases hb : p.includeSources <;> cases hb' : q.includeSources <;>
      first
      | rfl
      | (rw [hb, hb'] at h6; exact absurd h6 (by decide))
  cases p; cases q
  simp only [QueryParams.mk.injEq]
  simp only at h1 h4 hproj hbool
  exact ⟨h1, hproj, pyStrNat_injective h3, h4, pyStrNat_injective h5, hbool⟩

/-- C1 amended, witness: two concrete bar-free tuples differing only in
`top_k` (5 vs 6) get distinct pre-hash key strings. -/
theorem cacheKey_injective_barFree_witness :
    generateCacheKeyString
        { query := chars "what is rag", projectId := some (chars "p1"),
          topK := 5, temperature := chars "0.7", maxTokens := 512,
          includeSources := true }
      ≠ generateCacheKeyString
        { query := chars "what is rag", projectId := some (chars "p1"),
          topK := 6, temperature := chars "0.7", maxTokens := 512,
          includeSources := true } :=
  cacheKey_injective_barFree _ _
    (by decide) (by decide)
    (by intro s hs; simp only [Option.some.injEq] at hs; subst hs
        exact ⟨by decide, by decide⟩)
    (by intro s hs; simp only [Option.some.injEq] at hs; subst hs
        exact ⟨by decide, by decide⟩)
    (by decide) (by decide) (by decide)

/- ## Python string helpers shared by the services -/

/-- The whitespace characters recognized by Python's `str.split()`,
`str.strip()` and the regex class `\s` (ASCII range; the services only feed
them ASCII-controlled templates and document text, and none of the claims
turns on non-ASCII whitespace). -/
def pyWs (c : Char) : Bool :=
  c = ' ' || c = '\t' || c = '\n' || c = '\r' || c = '\x0b' || c = '\x0c'

/-- Python's `str.strip()`. -/
def pyStrip (l : List Char) : List Char :=
  ((l.dropWhile pyWs).reverse.dropWhile pyWs).reverse

/-- Python's `str.split()` (split on whitespace runs, dropping empties). -/
def pySplitWs (l : List Char) : List (List Char) :=
  (l.splitOnP pyWs).filter (· ≠ [])

/-- Python's `str.lower()` (ASCII case folding, as used on query/chunk
tokens). -/
def pyLower (l : List Char) : List Char := l.map Char.toLower

/-- Python's `" ".join(parts)`. -/
def joinSp (parts : List (List Char)) : List Char := List.intercalate [' '] parts

/- ## `ChunkingService._split_sentences` (`backend/app/services/chunking.py`) -/

/-- The abbreviation alternatives of the regex
`\b(Dr|Mr|Mrs|Ms|Prof|Sr|Jr)\.\s*`, in the order the alternation tries
them. -/
def abbrevs : List (List Char) :=
  [chars "Dr", chars "Mr", chars "Mrs", chars "Ms",
   chars "Prof", chars "Sr", chars "Jr"]

/-- Regex word character (`\w`, ASCII range), deciding the `\b` boundary. -/
def isWordChar (c : Char) : Bool := c.isAlpha || c.isDigit || c = '_'

/-- Try the alternation `(Dr|Mr|Mrs|Ms|Prof|Sr|Jr)\.` at the current
position: the first alternative `a` such that the text starts with `a ++ "."`
matches (regex backtracking over the ordered alternation).  Returns the
matched abbreviation and the rest of the text after the dot. -/
def matchAbbrev (l : List Char) : Option (List Char × List Char) :=
  abbrevs.findSome? fun a =>
    if (a ++ ['.']).isPrefixOf l then some (a, l.drop (a.length + 1)) else none

theorem matchAbbrev_after_lt {l a after : List Char}
    (h : matchAbbrev l = some (a, after)) : after.length < l.length := by
  simp only [matchAbbrev] at h
  obtain ⟨a', _, hif⟩ := List.exists_of_findSome?_eq_some h
  by_cases hp : (a' ++ ['.']).isPrefixOf l
  · rw [if_pos hp] at hif
    simp only [Option.some.injEq, Prod.mk.injEq] at hif
    obtain ⟨_, hafter⟩ := hif
    subst hafter
    have hpre : (a' ++ ['.']) <+: l := List.isPrefixOf_iff_prefix.mp hp
    have hlen : a'.length + 1 ≤ l.length := by
      have := hpre.length_le
      simpa using this
    simp only [List.length_drop]
    omega
  · rw [if_neg hp] at hif
    cases hif

theorem length_dropWhile_le (p : Char → Bool) (l : List Char) :
    (l.dropWhile p).length ≤ l.length := by
  induction l with
  | nil => simp
  | cons c rest ih =>
    by_cases h : p c
    · rw [List.dropWhile_cons, if_pos h]
      exact Nat.le_trans ih (Nat.le_succ _)
    · rw [List.dropWhile_cons, if_neg h]

/-- `re.sub(r'\b(Dr|Mr|Mrs|Ms|Prof|Sr|Jr)\.\s*', r'\1<DOT> ', text)`:
left-to-right scan; at a word boundary, a matched abbreviation-plus-dot and
the following whitespace run are replaced by the abbreviation, `"<DOT>"`,
and a single space.  `prev` is the character before the current position
(`none` at the start); after a substitution the previous character is the
last consumed one (a dot or a whitespace character, in either case not a
word character, here represented by `'.'`).

The scan consumes at least one character per step, so it is driven by a
fuel counter initialized to the text length (keeping the recursion
structural and hence kernel-computable); fuel exhaustion is unreachable and
returns the remaining text unchanged. -/
def absubGo : Nat → List Char → Option Char → List Char
  | 0, l, _ => l
  | _ + 1, [], _ => []
  | fuel + 1, c :: rest, prev =>
    let boundary := match prev with
      | none => true
      | some p => !isWordChar p
    if boundary then
      match matchAbbrev (c :: rest) with
      | some (a, after) =>
          a ++ chars "<DOT> " ++ absubGo fuel (after.dropWhile pyWs) (some '.')
      | none => c :: absubGo fuel rest (some c)
    else c :: absubGo fuel rest (some c)

def absub (l : List Char) (prev : Option Char) : List Char :=
  absubGo l.length l prev

/-- One character of the found-a-terminator-then-whitespace scan of
`re.split(r'(?<=[.!?])\s+(?=[A-Z])', text)`.

State: `done` = completed pieces so far (in order); `cur` = the current
piece, reversed; `run` = a pending whitespace run, reversed, known to be
preceded by a sentence terminator (`.`/`!`/`?`).  A pending run becomes a
split point iff the next character is an ASCII uppercase letter (the
regex's `\s+` is maximal-run matching because backtracking inside the run
places a whitespace character under the `[A-Z]` lookahead). -/
def isTerm (c : Char) : Bool := c = '.' || c = '!' || c = '?'

def splitBoundaryGo : List Char → List (List Char) → List Char → List Char →
    List (List Char)
  | [], done, cur, run => done ++ [(run ++ cur).reverse]
  | c :: rest, done, cur, run =>
    if run.isEmpty then
      if pyWs c ∧ (cur.head?.map isTerm).getD false = true then
        splitBoundaryGo rest done cur [c]
      else
        splitBoundaryGo rest done (c :: cur) []
    else
      if pyWs c then
        splitBoundaryGo rest done cur (c :: run)
      else if c.isUpper then
        splitBoundaryGo rest (done ++ [cur.reverse]) [c] []
      else
        splitBoundaryGo rest done (c :: (run ++ cur)) []

/-- `re.split(r'(?<=[.!?])\s+(?=[A-Z])', text)`. -/
def splitBoundary (l : List Char) : List (List Char) :=
  splitBoundaryGo l [] [] []

/-- Python's `s.replace('<DOT>', '.')`: leftmost, non-overlapping
replacement of the five-character tag by a dot. -/
def replaceDotTag : List Char → List Char
  | '<' :: 'D' :: 'O' :: 'T' :: '>' :: rest => '.' :: replaceDotTag rest
  | c :: rest => c :: replaceDotTag rest
  | [] => []

/-- `ChunkingService._split_sentences`: protect abbreviations, split on
sentence boundaries, restore the protected dots, strip each piece and drop
empties. -/
def splitSentences (text : List Char) : List (List Char) :=
  ((splitBoundary (absub text none)).map
      (fun s => pyStrip (replaceDotTag s))).filter (· ≠ [])

/- ## `ChunkingService._chunk_text_content` (`backend/app/services/chunking.py`) -/

/-- Metadata attached to each produced chunk (`ChunkMetadata` in the
source; the optional page/section/timestamp fields stay `None` on the plain
text path and are omitted). -/
structure ChunkMeta where
  chunkIndex : Nat
  totalChunks : Nat
  startChar : Nat
  endChar : Nat
deriving DecidableEq, Repr

structure TextChunk where
  text : List Char
  meta : ChunkMeta
deriving DecidableEq, Repr

/-- The sentence-packing loop of `_chunk_text_content`, producing each
chunk as its sentence list together with its `(start_char, end_char)` span.
State: `cur` = `current_chunk`, `curLen` = `current_length`, `pos` =
`char_position`.  A chunk is flushed when appending the next sentence would
exceed `chunk_size`; if `chunk_overlap > 0` and the flushed chunk has more
than one sentence, its last sentence seeds the next chunk. -/
def chunkLoop (cs co : Nat) :
    List (List Char) → List (List Char) → Nat → Nat →
    List (List (List Char) × Nat × Nat)
  | [], cur, curLen, pos =>
      if cur.isEmpty then [] else [(cur, pos - curLen, pos)]
  | s :: rest, cur, curLen, pos =>
      if cs < curLen + s.length ∧ ¬cur.isEmpty then
        let ov := if 0 < co ∧ 1 < cur.length then [cur.getLast?.getD []] else []
        let ovLen := if 0 < co ∧ 1 < cur.length then (cur.getLast?.getD []).length else 0
        (cur, pos - curLen, pos) ::
          chunkLoop cs co rest (ov ++ [s]) (ovLen + s.length + 1) (pos + s.length + 1)
      else
        chunkLoop cs co rest (cur ++ [s]) (curLen + s.length + 1) (pos + s.length + 1)

/-- The per-chunk sentence lists (with spans) that `_chunk_text_content`
produces for a text. -/
def chunkSentences (cs co : Nat) (text : List Char) :
    List (List (List Char) × Nat × Nat) :=
  chunkLoop cs co (splitSentences text) [] 0 0

/-- `ChunkingService._chunk_text_content(text)` with configured
`chunk_size = cs` and `chunk_overlap = co`: split into sentences (empty
sentence list means zero chunks), pack greedily, join each chunk's
sentences with single spaces, and number the chunks `0..N-1` with
`total_chunks = N`. -/
def chunkTextContent (cs co : Nat) (text : List Char) : List TextChunk :=
  let sentences := splitSentences text
  if sentences.isEmpty then []
  else
    let raws := chunkLoop cs co sentences [] 0 0
    raws.enum.map fun p =>
      { text := joinSp p.2.1,
        meta := { chunkIndex := p.1, totalChunks := raws.length,
                  startChar := p.2.2.1, endChar := p.2.2.2 } }

/-- The number of characters of text shared between two consecutive chunks:
the length of the longest suffix of `a` that is also a leading segment of
`b`. -/
def sharedOverlap (a b : List Char) : Nat :=
  ((List.range (min a.length b.length + 1)).filter
      (fun k => a.drop (a.length - k) = b.take k)).foldr max 0

/-- C2 counterexample document: three 40-character sentences. -/
def c2Text : List Char :=
  chars ("Aaaaaaaaaaaaaaaaaaaaaaaaaaaaaaaaaaaaaaa. " ++
         "Bbbbbbbbbbbbbbbbbbbbbbbbbbbbbbbbbbbbbbb. " ++
         "Ccccccccccccccccccccccccccccccccccccccc.")

set_option maxRecDepth 100000 in
/-- C2 (counterexample): chunking the three-sentence `c2Text` with
`chunk_size = 100` and `chunk_overlap = 10` yields two chunks whose shared
text is the entire 40-character second sentence — four times the configured
overlap.  The source carries the whole closing sentence of a flushed chunk
into the next chunk without ever comparing its length to `chunk_overlap`. -/
theorem chunk_overlap_exceeds_config_c2 :
    (chunkTextContent 100 10 c2Text).map (fun c => c.text) =
      [chars "Aaaaaaaaaaaaaaaaaaaaaaaaaaaaaaaaaaaaaaa. Bbbbbbbbbbbbbbbbbbbbbbbbbbbbbbbbbbbbbbb.",
       chars "Bbbbbbbbbbbbbbbbbbbbbbbbbbbbbbbbbbbbbbb. Ccccccccccccccccccccccccccccccccccccccc."] ∧
    10 < sharedOverlap
      (chars "Aaaaaaaaaaaaaaaaaaaaaaaaaaaaaaaaaaaaaaa. Bbbbbbbbbbbbbbbbbbbbbbbbbbbbbbbbbbbbbbb.")
      (chars "Bbbbbbbbbbbbbbbbbbbbbbbbbbbbbbbbbbbbbbb. Ccccccccccccccccccccccccccccccccccccccc.") := by
  constructor
  · rfl
  · decide

theorem getLast?_getD_of_ne_nil {α : Type} (d : α) {l : List α}
    (h : ¬l.isEmpty) : l.getLast? = some (l.getLast?.getD d) := by
  cases l with
  | nil => simp at h
  | cons a rest =>
    cases hx : (a :: rest).getLast? with
    | none => exact absurd (List.getLast?_eq_none_iff.mp hx) (by simp)
    | some b => simp

/-- If the packing loop emits any chunk at all, the first chunk it emits
extends the pending `cur` sentence list. -/
theorem chunkLoop_head_extends (cs co : Nat) :
    ∀ (sents cur : List (List Char)) (curLen pos : Nat) (X : List (List Char) × Nat × Nat),
      (chunkLoop cs co sents cur curLen pos).head? = some X →
      ∃ ext, X.1 = cur ++ ext := by
  intro sents
  induction sents with
  | nil =>
    intro cur curLen pos X h
    by_cases hc : cur.isEmpty
    · simp [chunkLoop, hc] at h
    · simp only [chunkLoop, if_neg hc, List.head?_cons, Option.some.injEq] at h
      exact ⟨[], by simp [← h]⟩
  | cons s rest ih =>
    intro cur curLen pos X h
    by_cases hf : cs < curLen + s.length ∧ ¬cur.isEmpty
    · simp only [chunkLoop, if_pos hf, List.head?_cons, Option.some.injEq] at h
      exact ⟨[], by simp [← h]⟩
    · simp only [chunkLoop, if_neg hf] at h
      obtain ⟨ext, hext⟩ := ih _ _ _ X h
      exact ⟨[s] ++ ext, by simpa using hext⟩

/-- The carried-overlap invariant of the packing loop: whenever a chunk with
more than one sentence is followed by another chunk, the follower starts
with the flushed chunk's last sentence. -/
theorem chunkLoop_chain (cs co : Nat) (hco : 0 < co) :
    ∀ (sents cur : List (List Char)) (curLen pos : Nat),
      List.Chain' (fun A B => 1 < A.1.length → B.1.head? = A.1.getLast?)
        (chunkLoop cs co sents cur curLen pos) := by
  intro sents
  induction sents with
  | nil =>
    intro cur curLen pos
    by_cases hc : cur.isEmpty <;> simp [chunkLoop, hc]
  | cons s rest ih =>
    intro cur curLen pos
    by_cases hf : cs < curLen + s.length ∧ ¬cur.isEmpty
    · simp only [chunkLoop, if_pos hf]
      rw [List.chain'_cons']
      refine ⟨?_, ih _ _ _⟩
      intro B hB hlen
      rw [if_pos ⟨hco, hlen⟩, if_pos ⟨hco, hlen⟩] at hB
      obtain ⟨ext, hext⟩ := chunkLoop_head_extends cs co _ _ _ _ B hB
      rw [hext]
      simp only [List.cons_append, List.head?_cons]
      exact (getLast?_getD_of_ne_nil [] hf.2).symm
    · simp only [chunkLoop, if_neg hf]
      exact ih _ _ _

/-- C2 (amended): with a positive configured overlap, the text carried from
chunk `i` into chunk `i+1` is chunk `i`'s entire last sentence (whenever
chunk `i` holds more than one sentence; a single-sentence chunk carries
nothing), regardless of `chunk_overlap`: each chunk's text is the
space-join of its sentence list, and each successor chunk's sentence list
starts with its predecessor's last sentence.  The shared text is therefore
bounded by the length of that sentence, not by `chunk_overlap`. -/
theorem chunk_overlap_is_last_sentence (cs co : Nat) (text : List Char)
    (hco : 0 < co) :
    (chunkTextContent cs co text).map (fun c => c.text)
        = (chunkSentences cs co text).map (fun r => joinSp r.1) ∧
      List.Chain' (fun A B => 1 < A.1.length → B.1.head? = A.1.getLast?)
        (chunkSentences cs co text) := by
  constructor
  · unfold chunkTextContent chunkSentences
    by_cases hs : (splitSentences text).isEmpty
    · have : splitSentences text = [] := by
        cases h : splitSentences text with
        | nil => rfl
        | cons a l => rw [h] at hs; simp at hs
      simp [hs, this, chunkLoop]
    · simp only [if_neg hs, List.map_map]
      have : (chunkLoop cs co (splitSentences text) [] 0 0).enum.map Prod.snd
          = chunkLoop cs co (splitSentences text) [] 0 0 := List.enum_map_snd _
      conv_rhs => rw [← this]
      rw [List.map_map]
      rfl
  · exact chunkLoop_chain cs co hco _ _ _ _

/-- C2 amended, witness at the counterexample document: overlap 10 is
positive, and the second chunk indeed begins with the first chunk's last
sentence. -/
theorem chunk_overlap_is_last_sentence_witness :
    (chunkTextContent 100 10 c2Text).map (fun c => c.text)
        = (chunkSentences 100 10 c2Text).map (fun r => joinSp r.1) ∧
      List.Chain' (fun A B => 1 < A.1.length → B.1.head? = A.1.getLast?)
        (chunkSentences 100 10 c2Text) :=
  chunk_overlap_is_last_sentence 100 10 c2Text (by decide)

/- ## C8: empty or whitespace-only input produces zero chunks -/

theorem pyWs_elim {c : Char} (h : pyWs c = true) :
    c = ' ' ∨ c = '\t' ∨ c = '\n' ∨ c = '\r' ∨ c = '\x0b' ∨ c = '\x0c' := by
  have := h
  simp only [pyWs, Bool.or_eq_true, decide_eq_true_eq] at this
  tauto

theorem matchAbbrev_none_of_ws {c : Char} (hc : pyWs c = true)
    (rest : List Char) : matchAbbrev (c :: rest) = none := by
  rcases pyWs_elim hc with rfl | rfl | rfl | rfl | rfl | rfl <;>
    simp [matchAbbrev, abbrevs, chars, List.findSome?_cons, List.isPrefixOf]

theorem absubGo_all_ws :
    ∀ (fuel : Nat) (l : List Char), (∀ c ∈ l, pyWs c = true) →
      ∀ prev, absubGo fuel l prev = l := by
  intro fuel
  induction fuel with
  | zero => intro l _ prev; rfl
  | succ f ih =>
    intro l h prev
    cases l with
    | nil => rfl
    | cons c rest =>
      have hc : pyWs c = true := h c (List.mem_cons_self ..)
      simp only [absubGo, matchAbbrev_none_of_ws hc]
      have hr := ih rest (fun x hx => h x (List.mem_cons_of_mem c hx)) (some c)
      split <;> rw [hr]

theorem absub_all_ws {l : List Char} (h : ∀ c ∈ l, pyWs c = true)
    (prev : Option Char) : absub l prev = l :=
  absubGo_all_ws l.length l h prev

theorem isTerm_eq_false_of_ws {c : Char} (h : pyWs c = true) :
    isTerm c = false := by
  rcases pyWs_elim h with rfl | rfl | rfl | rfl | rfl | rfl <;> rfl

theorem splitBoundaryGo_all_ws :
    ∀ (l : List Char) (done : List (List Char)) (cur : List Char),
      (∀ c ∈ l, pyWs c = true) → (∀ c ∈ cur, pyWs c = true) →
      splitBoundaryGo l done cur [] = done ++ [(l.reverse ++ cur).reverse] := by
  intro l
  induction l with
  | nil => intro done cur _ _; simp [splitBoundaryGo]
  | cons c rest ih =>
    intro done cur h hcur
    have hc : pyWs c = true := h c (List.mem_cons_self ..)
    have hterm : (cur.head?.map isTerm).getD false = false := by
      cases cur with
      | nil => rfl
      | cons d ds =>
        simp only [List.head?_cons, Option.map_some, Option.getD_some]
        exact isTerm_eq_false_of_ws (hcur d (List.mem_cons_self ..))
    simp only [splitBoundaryGo, List.isEmpty_nil, if_true, hterm]
    rw [if_neg (by simp [hterm])]
    rw [ih done (c :: cur) (fun x hx => h x (List.mem_cons_of_mem c hx))
      (fun x hx => by
        rcases List.mem_cons.mp hx with rfl | hx'
        · exact hc
        · exact hcur x hx')]
    simp

theorem replaceDotTag_all_ws :
    ∀ (l : List Char), (∀ c ∈ l, pyWs c = true) → replaceDotTag l = l := by
  intro l
  induction l with
  | nil => intro _; rfl
  | cons c rest ih =>
    intro h
    have hc : pyWs c = true := h c (List.mem_cons_self ..)
    have hne : c ≠ '<' := by
      rcases pyWs_elim hc with rfl | rfl | rfl | rfl | rfl | rfl <;> decide
    rw [replaceDotTag.eq_def]
    split
    · rename_i heq
      exact absurd (List.cons.injEq .. ▸ heq).1 hne
    · rename_i c' rest' heq
      obtain ⟨rfl, rfl⟩ := List.cons.injEq .. ▸ heq
      rw [ih (fun x hx => h x (List.mem_cons_of_mem c hx))]
    · rename_i heq
      cases heq

theorem pyStrip_all_ws {l : List Char} (h : ∀ c ∈ l, pyWs c = true) :
    pyStrip l = [] := by
  have h1 : l.dropWhile pyWs = [] := List.dropWhile_eq_nil_iff.mpr h
  simp [pyStrip, h1]

/-- Whitespace-only text yields no sentences: the abbreviation substitution
leaves it unchanged, the boundary split returns it as a single piece, and
that piece strips to empty and is filtered out. -/
theorem splitSentences_all_ws {text : List Char}
    (h : ∀ c ∈ text, pyWs c = true) : splitSentences text = [] := by
  unfold splitSentences splitBoundary
  rw [absub_all_ws h none]
  rw [splitBoundaryGo_all_ws text [] [] h (by simp)]
  have hpiece : ∀ c ∈ (text.reverse ++ ([] : List Char)).reverse, pyWs c = true := by
    intro c hc
    exact h c (by simpa using hc)
  simp only [List.nil_append, List.map_cons, List.map_nil]
  rw [replaceDotTag_all_ws _ (by simpa using h), pyStrip_all_ws (by simpa using h)]
  rfl

/-- C8 (confirmed): for every chunk-size/overlap configuration, chunking an
empty or whitespace-only text produces zero chunks; the embedding is a
total function, so no error is raised on this path. -/
theorem chunk_empty_input_c8 (cs co : Nat) (text : List Char)
    (h : ∀ c ∈ text, pyWs c = true) :
    chunkTextContent cs co text = [] := by
  unfold chunkTextContent
  rw [splitSentences_all_ws h]
  rfl

/-- C8 witness: the default configuration (512/50) on the whitespace-only
text `" \n\t "` (and hence also on the empty text) yields zero chunks. -/
theorem chunk_empty_input_c8_witness :
    chunkTextContent 512 50 (chars " \n\t ") = [] :=
  chunk_empty_input_c8 512 50 (chars " \n\t ") (by decide)

/- ## `RAGService._rerank_chunks` (`backend/app/services/rag.py`) -/

/-- The deployment settings consumed by the RAG service (`Settings` in
`backend/app/config.py`): the rerank toggle and the three combination
weights. -/
structure RagSettings where
  rerankEnabled : Bool
  rerankAlpha : ℚ
  rerankBeta : ℚ
  rerankGamma : ℚ
deriving DecidableEq, Repr

/-- A retrieval candidate: the chunk dict assembled by
`search_similar_chunks` and enriched (`"rerank_score"` key) by
`_rerank_chunks`.  `rerankScore = none` models the key being absent.
The Python dict key `"section"` is called `sectionTag` here (`section` is a
Lean keyword). -/
structure RChunk where
  chunkId : List Char
  documentId : List Char
  documentTitle : List Char
  text : List Char
  score : ℚ
  rerankScore : Option ℚ := none
  pageNum : Option Nat := none
  timestamp : Option ℚ := none
  sectionTag : Option (List Char) := none
deriving DecidableEq, Repr

/-- `set(s.lower().split())`: case-folded whitespace tokens, as a
duplicate-free list. -/
def pyTokens (s : List Char) : List (List Char) :=
  (pySplitWs (pyLower s)).dedup

/-- The keyword-match factor of `_rerank_chunks`:
`len(query_terms & chunk_terms) / len(query_terms) if query_terms else 0`. -/
def keywordScore (query text : List Char) : ℚ :=
  let queryTerms := pyTokens query
  let chunkTerms := pyTokens text
  if queryTerms.isEmpty then 0
  else ((queryTerms.filter (· ∈ chunkTerms)).length : ℚ) / (queryTerms.length : ℚ)

/-- The length-preference factor of `_rerank_chunks`: fixed bands at 100
and 1000 characters (the float literals `0.5` and `0.8` as rationals). -/
def lengthScore (text : List Char) : ℚ :=
  if text.length < 100 then 1/2
  else if 1000 < text.length then 4/5
  else 1

/-- The combined score `_rerank_chunks` writes into `chunk["rerank_score"]`. -/
def combinedScore (st : RagSettings) (query : List Char) (c : RChunk) : ℚ :=
  st.rerankAlpha * c.score + st.rerankBeta * keywordScore query c.text +
    st.rerankGamma * lengthScore c.text

/-- The comparison of `chunks.sort(key=lambda x: x["rerank_score"],
reverse=True)`: descending by rerank score (Python's stable sort with
`reverse=True` keeps equal-keyed elements in their original order, as does
`mergeSort`). -/
def rerankLe (a b : RChunk) : Bool :=
  decide ((b.rerankScore.getD 0) ≤ (a.rerankScore.getD 0))

/-- `RAGService._rerank_chunks(query, chunks, top_k)`: write the weighted
combination of vector, keyword and length factors into each candidate,
sort descending by it, keep the first `top_k`. -/
def rerankChunks (st : RagSettings) (query : List Char)
    (chunks : List RChunk) (topK : Nat) : List RChunk :=
  let scored := chunks.map fun c =>
    { c with rerankScore := some (combinedScore st query c) }
  (scored.mergeSort rerankLe).take topK

theorem rerankLe_trans (a b c : RChunk) :
    rerankLe a b → rerankLe b c → rerankLe a c := by
  simp only [rerankLe, decide_eq_true_eq]
  intro h1 h2
  exact le_trans h2 h1

theorem rerankLe_total (a b : RChunk) : rerankLe a b || rerankLe b a := by
  simp only [rerankLe, Bool.or_eq_true, decide_eq_true_eq]
  exact le_total _ _

/-- C5 (confirmed): `_rerank_chunks` assigns every returned candidate the
combined score `alpha·vector + beta·keyword + gamma·length` (with the
keyword-overlap and length-band factors as defined), returns `min(top_k,
number of candidates)` results sorted in descending combined score, and
those results are a top-`top_k` selection: the scored candidate list is a
permutation of the returned list plus dropped candidates, every dropped
candidate scoring no higher than every returned one. -/
theorem rerank_combined_score_c5 (st : RagSettings) (query : List Char)
    (chunks : List RChunk) (topK : Nat) :
    (∀ c ∈ rerankChunks st query chunks topK,
        c.rerankScore = some (st.rerankAlpha * c.score +
          st.rerankBeta * keywordScore query c.text +
          st.rerankGamma * lengthScore c.text)) ∧
    (rerankChunks st query chunks topK).Pairwise
        (fun a b => (b.rerankScore.getD 0) ≤ (a.rerankScore.getD 0)) ∧
    (rerankChunks st query chunks topK).length = min topK chunks.length ∧
    ∃ dropped : List RChunk,
      (rerankChunks st query chunks topK ++ dropped).Perm
          (chunks.map fun c =>
            { c with rerankScore := some (combinedScore st query c) }) ∧
      ∀ a ∈ rerankChunks st query chunks topK, ∀ b ∈ dropped,
        (b.rerankScore.getD 0) ≤ (a.rerankScore.getD 0) := by
  have hsorted := List.sorted_mergeSort
    (fun a b c => rerankLe_trans a b c) rerankLe_total
    (chunks.map fun c => { c with rerankScore := some (combinedScore st query c) })
  have hperm := List.mergeSort_perm
    (chunks.map fun c => { c with rerankScore := some (combinedScore st query c) })
    rerankLe
  refine ⟨?_, ?_, ?_, ?_⟩
  · intro c hc
    have hmem : c ∈ (chunks.map fun c =>
        { c with rerankScore := some (combinedScore st query c) }).mergeSort rerankLe :=
      List.mem_of_mem_take hc
    rw [List.mem_mergeSort] at hmem
    obtain ⟨orig, _, rfl⟩ := List.mem_map.mp hmem
    simp [combinedScore]
  · have := hsorted.sublist (List.take_sublist topK _)
    exact this.imp (by intro a b h; simpa [rerankLe] using h)
  · simp [rerankChunks, Nat.min_comm]
  · refine ⟨((chunks.map fun c =>
        { c with rerankScore := some (combinedScore st query c) }).mergeSort
          rerankLe).drop topK, ?_, ?_⟩
    · rw [rerankChunks]
      simp only [List.take_append_drop]
      exact hperm
    · intro a ha b hb
      have hsp : List.Pairwise (fun a b => rerankLe a b = true)
          (((chunks.map fun c =>
              { c with rerankScore := some (combinedScore st query c) }).mergeSort
                rerankLe).take topK ++
           ((chunks.map fun c =>
              { c with rerankScore := some (combinedScore st query c) }).mergeSort
                rerankLe).drop topK) := by
        rw [List.take_append_drop]
        exact hsorted
      have h := (List.pairwise_append.mp hsp).2.2 a ha b hb
      simpa [rerankLe] using h

/-- C9 (confirmed): when the lower-cased query splits into zero whitespace
tokens, the guard `if query_terms else 0` makes the keyword factor 0 for
every chunk text (no division by `len(query_terms) == 0` is attempted), and
reranking still completes normally: the right number of candidates is
returned and each carries the combined score with the keyword term
vanished. -/
theorem rerank_empty_query_c9 (st : RagSettings) (query : List Char)
    (hq : pyTokens query = []) (chunks : List RChunk) (topK : Nat) :
    (∀ text, keywordScore query text = 0) ∧
    (rerankChunks st query chunks topK).length = min topK chunks.length ∧
    ∀ c ∈ rerankChunks st query chunks topK,
      c.rerankScore = some (st.rerankAlpha * c.score +
        st.rerankGamma * lengthScore c.text) := by
  have hkw : ∀ text, keywordScore query text = 0 := by
    intro text
    simp [keywordScore, hq]
  refine ⟨hkw, (rerank_combined_score_c5 st query chunks topK).2.2.1, ?_⟩
  intro c hc
  have := (rerank_combined_score_c5 st query chunks topK).1 c hc
  rw [this, hkw c.text]
  ring_nf

/-- C9 witness: a whitespace-only query (zero tokens) over one concrete
candidate, with the default weights `0.7/0.2/0.1` as rationals. -/
theorem rerank_empty_query_c9_witness :
    (∀ text, keywordScore (chars "   ") text = 0) ∧
    (rerankChunks
        { rerankEnabled := true, rerankAlpha := 7/10, rerankBeta := 1/5,
          rerankGamma := 1/10 }
        (chars "   ")
        [{ chunkId := chars "c1", documentId := chars "d1",
           documentTitle := chars "T", text := chars "hello world",
           score := 9/10 }] 5).length = min 5 1 ∧
    ∀ c ∈ rerankChunks
        { rerankEnabled := true, rerankAlpha := 7/10, rerankBeta := 1/5,
          rerankGamma := 1/10 }
        (chars "   ")
        [{ chunkId := chars "c1", documentId := chars "d1",
           documentTitle := chars "T", text := chars "hello world",
           score := 9/10 }] 5,
      c.rerankScore = some ((7/10 : ℚ) * c.score + (1/10 : ℚ) * lengthScore c.text) :=
  rerank_empty_query_c9 _ (chars "   ") (by rfl) _ 5

/- ## `EmbeddingService.generate_embedding`, batch path
(`backend/app/services/embeddings.py`) -/

/-- Embedding vectors (numpy arrays in the source) as rational lists. -/
abbrev Vec := List ℚ

/-- The embedding-cache key: the pre-hash string of
`hashlib.sha256(f"{text}_{normalize}".encode()).hexdigest()` (digest
determinism, as for the query cache key). -/
def embedCacheKey (t : List Char) (normalize : Bool) : List Char :=
  t ++ '_' :: pyStrBool normalize

/-- The embedding cache as an association list; a fresh write shadows older
entries, matching dict/redis overwrite semantics. -/
abbrev EmbCache := List (List Char × Vec)

def cacheLookup (cache : EmbCache) (k : List Char) : Option Vec :=
  (cache.find? (fun p => p.1 == k)).map Prod.snd

def cacheInsert (cache : EmbCache) (k : List Char) (v : Vec) : EmbCache :=
  (k, v) :: cache

/-- One step of the batch cache-check loop (`for i, t in enumerate(text)`):
a cache hit appends `(i, cached)` to `embeddings`, a miss appends the text
and its index to `texts_to_process` / `indices_to_process`.  The cache is
only read here; writes happen after inference. -/
def partitionStep (cache : EmbCache) (normalize : Bool)
    (acc : List (Nat × Vec) × List (List Char) × List Nat)
    (p : Nat × List Char) : List (Nat × Vec) × List (List Char) × List Nat :=
  match cacheLookup cache (embedCacheKey p.2 normalize) with
  | some emb => (acc.1 ++ [(p.1, emb)], acc.2.1, acc.2.2)
  | none => (acc.1, acc.2.1 ++ [p.2], acc.2.2 ++ [p.1])

/-- The result of a batch `generate_embedding` call: the returned vectors,
the texts actually sent to model inference (`texts_to_process`), and the
cache state after the post-inference writes. -/
structure BatchResult where
  output : List Vec
  processed : List (List Char)
  cacheAfter : EmbCache
deriving Repr

/-- Index comparison for `embeddings.sort(key=lambda x: x[0])`. -/
def idxLe (a b : Nat × Vec) : Bool := decide (a.1 ≤ b.1)

/-- The batch path of `EmbeddingService.generate_embedding(text, normalize,
use_cache)` with the model's per-text encoding given by `f`: partition the
enumerated inputs into cached and uncached, run inference (`map f`) on the
uncached subset only, write the new vectors back to the cache, recombine
both parts and sort by original index. -/
def generateEmbeddingBatch (f : List Char → Vec) (cache : EmbCache)
    (useCache normalize : Bool) (texts : List (List Char)) : BatchResult :=
  let parts :=
    if useCache then
      texts.enum.foldl (partitionStep cache normalize) ([], [], [])
    else
      ([], texts, List.range texts.length)
  let newEmbeddings := parts.2.1.map f
  let cacheAfter :=
    if useCache then
      (parts.2.1.zip newEmbeddings).foldl
        (fun c p => cacheInsert c (embedCacheKey p.1 normalize) p.2) cache
    else cache
  let combined := parts.1 ++ parts.2.2.zip newEmbeddings
  { output := (combined.mergeSort idxLe).map Prod.snd,
    processed := parts.2.1,
    cacheAfter := cacheAfter }

theorem pairwise_fst_lt_enumFrom {α : Type} :
    ∀ (k : Nat) (l : List α),
      (l.enumFrom k).Pairwise (fun a b => a.1 < b.1) := by
  intro k l
  induction l generalizing k with
  | nil => simp
  | cons x xs ih =>
    simp only [List.enumFrom]
    refine List.Pairwise.cons ?_ (ih (k + 1))
    intro y hy
    have := List.le_fst_of_mem_enumFrom hy
    omega

/-- The partition loop over the enumerated inputs, with explicit initial
accumulators. -/
def partitionFold (cache : EmbCache) (normalize : Bool)
    (l : List (Nat × List Char))
    (init : List (Nat × Vec) × List (List Char) × List Nat) :
    List (Nat × Vec) × List (List Char) × List Nat :=
  l.foldl (partitionStep cache normalize) init

open List in
/-- The partition loop's invariant: lengths of the uncached texts and their
indices agree, and — provided every cached entry stores the model's vector
for its text — the hit list plus the pending (index, vector) zip is a
permutation of the enumerated inputs mapped through the model. -/
theorem partition_fold_spec (f : List Char → Vec) (cache : EmbCache)
    (normalize : Bool)
    (hcache : ∀ t v, cacheLookup cache (embedCacheKey t normalize) = some v →
      v = f t) :
    ∀ (rest : List (List Char)) (k : Nat) (hits : List (Nat × Vec))
      (toProc : List (List Char)) (idxs : List Nat),
      idxs.length = toProc.length →
      (partitionFold cache normalize (rest.enumFrom k) (hits, toProc, idxs)).2.2.length
          = (partitionFold cache normalize (rest.enumFrom k) (hits, toProc, idxs)).2.1.length ∧
        ((partitionFold cache normalize (rest.enumFrom k) (hits, toProc, idxs)).1 ++
            (partitionFold cache normalize (rest.enumFrom k) (hits, toProc, idxs)).2.2.zip
              (((partitionFold cache normalize (rest.enumFrom k) (hits, toProc, idxs)).2.1).map f)).Perm
          ((hits ++ idxs.zip (toProc.map f)) ++
            (rest.enumFrom k).map (fun p => (p.1, f p.2))) := by
  intro rest
  induction rest with
  | nil =>
    intro k hits toProc idxs hlen
    refine ⟨hlen, ?_⟩
    simp [partitionFold]
  | cons t ts ih =>
    intro k hits toProc idxs hlen
    simp only [List.enumFrom, partitionFold, List.foldl_cons, List.map_cons]
    by_cases hhit : ∃ v, cacheLookup cache (embedCacheKey t normalize) = some v
    · obtain ⟨v, hv⟩ := hhit
      have hft : v = f t := hcache t v hv
      have hstep : partitionStep cache normalize (hits, toProc, idxs) (k, t)
          = (hits ++ [(k, f t)], toProc, idxs) := by
        simp [partitionStep, hv, hft]
      rw [hstep]
      obtain ⟨hl, hp⟩ := ih (k + 1) (hits ++ [(k, f t)]) toProc idxs hlen
      rw [partitionFold] at hl hp
      refine ⟨hl, hp.trans ?_⟩
      calc (hits ++ [(k, f t)] ++ idxs.zip (toProc.map f)) ++
            (ts.enumFrom (k + 1)).map (fun p => (p.1, f p.2))
          = hits ++ ((k, f t) :: (idxs.zip (toProc.map f) ++
              (ts.enumFrom (k + 1)).map (fun p => (p.1, f p.2)))) := by
            simp [List.append_assoc]
        _ ~ hits ++ (idxs.zip (toProc.map f) ++
              ((k, f t) :: (ts.enumFrom (k + 1)).map (fun p => (p.1, f p.2)))) :=
            List.Perm.append_left hits List.perm_middle.symm
        _ = (hits ++ idxs.zip (toProc.map f)) ++
              ((k, f t) :: (ts.enumFrom (k + 1)).map (fun p => (p.1, f p.2))) := by
            simp [List.append_assoc]
    · have hmiss : cacheLookup cache (embedCacheKey t normalize) = none := by
        cases hx : cacheLookup cache (embedCacheKey t normalize) with
        | none => rfl
        | some v => exact absurd ⟨v, hx⟩ hhit
      have hstep : partitionStep cache normalize (hits, toProc, idxs) (k, t)
          = (hits, toProc ++ [t], idxs ++ [k]) := by
        simp [partitionStep, hmiss]
      rw [hstep]
      obtain ⟨hl, hp⟩ := ih (k + 1) hits (toProc ++ [t]) (idxs ++ [k])
        (by simp [hlen])
      rw [partitionFold] at hl hp
      refine ⟨hl, hp.trans ?_⟩
      have hzip : (idxs ++ [k]).zip ((toProc ++ [t]).map f)
          = idxs.zip (toProc.map f) ++ [(k, f t)] := by
        rw [List.map_append]
        exact List.zip_append (by simp [hlen])
      rw [hzip]
      exact List.Perm.of_eq (by simp [List.append_assoc])

theorem idxLe_trans (a b c : Nat × Vec) : idxLe a b → idxLe b c → idxLe a c := by
  simp only [idxLe, decide_eq_true_eq]
  omega

theorem idxLe_total (a b : Nat × Vec) : idxLe a b || idxLe b a := by
  simp only [idxLe, Bool.or_eq_true, decide_eq_true_eq]
  omega

instance : IsAntisymm (Nat × Vec) (fun a b => a.1 < b.1) :=
  ⟨fun _ _ h1 h2 => absurd h2 (Nat.lt_asymm h1)⟩

/-- An (index, vector) list that is a permutation of the strictly
index-increasing list `target` sorts (by index) to exactly `target`. -/
theorem mergeSort_eq_of_perm_enum {combined target : List (Nat × Vec)}
    (hperm : combined.Perm target)
    (htarget : target.Pairwise (fun a b => a.1 < b.1)) :
    combined.mergeSort idxLe = target := by
  have hsorted : (combined.mergeSort idxLe).Pairwise (fun a b => idxLe a b = true) :=
    List.sorted_mergeSort idxLe_trans idxLe_total combined
  have hperm' : (combined.mergeSort idxLe).Perm target :=
    (List.mergeSort_perm combined idxLe).trans hperm
  have hnodup : ((combined.mergeSort idxLe).map Prod.fst).Nodup := by
    have ht : (target.map Prod.fst).Nodup := by
      rw [List.nodup_iff_sublist]
      intro a hsub
      have := (List.pairwise_map.mpr (htarget.imp (fun h => Nat.ne_of_lt h))).sublist hsub
      simp at this
    exact (hperm'.map Prod.fst).nodup_iff.mpr ht
  have hlt : (combined.mergeSort idxLe).Pairwise (fun a b => a.1 < b.1) := by
    have hne : (combined.mergeSort idxLe).Pairwise (fun a b => a.1 ≠ b.1) :=
      List.pairwise_map.mp hnodup
    exact (hsorted.and hne).imp (by
      intro a b h
      have h1 := h.1
      simp only [idxLe, decide_eq_true_eq] at h1
      omega)
  exact List.eq_of_perm_of_sorted hperm' hlt htarget

/-- The recombination correctness of the batch path: whenever the cache is
consistent with the model (every cached vector is the model's vector for
its text), the batch call returns exactly the model's vectors in input
order — cached or not. -/
theorem generateEmbeddingBatch_output (f : List Char → Vec) (cache : EmbCache)
    (useCache normalize : Bool) (texts : List (List Char))
    (hcache : ∀ t v, cacheLookup cache (embedCacheKey t normalize) = some v →
      v = f t) :
    (generateEmbeddingBatch f cache useCache normalize texts).output
      = texts.map f := by
  have htarget : ((texts.enumFrom 0).map (fun p => (p.1, f p.2))).Pairwise
      (fun a b : Nat × Vec => a.1 < b.1) := by
    refine List.pairwise_map.mpr ?_
    exact (pairwise_fst_lt_enumFrom 0 texts).imp (fun h => h)
  have hsnd : ((texts.enumFrom 0).map (fun p => (p.1, f p.2))).map Prod.snd
      = texts.map f := by
    rw [List.map_map]
    have : (Prod.snd ∘ fun p : Nat × List Char => (p.1, f p.2))
        = f ∘ Prod.snd := rfl
    rw [this, ← List.map_map, List.enumFrom_map_snd]
  cases useCache with
  | true =>
    obtain ⟨hl, hp⟩ := partition_fold_spec f cache normalize hcache texts 0 [] [] [] rfl
    simp only [List.zip_nil_left, List.append_nil, List.nil_append, List.map_nil] at hp
    have : (generateEmbeddingBatch f cache true normalize texts).output
        = (((partitionFold cache normalize (texts.enumFrom 0) ([], [], [])).1 ++
            (partitionFold cache normalize (texts.enumFrom 0) ([], [], [])).2.2.zip
              (((partitionFold cache normalize (texts.enumFrom 0) ([], [], [])).2.1).map f)).mergeSort
            idxLe).map Prod.snd := rfl
    rw [this, mergeSort_eq_of_perm_enum hp htarget, hsnd]
  | false =>
    have hcomb : ∀ (l : List (List Char)) (k : Nat),
        (List.range' k l.length).zip (l.map f)
          = (l.enumFrom k).map (fun p => (p.1, f p.2)) := by
      intro l
      induction l with
      | nil => intro k; rfl
      | cons t ts ihh =>
        intro k
        simp only [List.map_cons, List.length_cons, List.range', List.zip_cons_cons,
          List.enumFrom]
        rw [ihh (k + 1)]
    have hrange : List.range texts.length = List.range' 0 texts.length :=
      List.range_eq_range' _
    have : (generateEmbeddingBatch f cache false normalize texts).output
        = (([] ++ (List.range texts.length).zip (texts.map f)).mergeSort idxLe).map
            Prod.snd := rfl
    rw [this, List.nil_append, hrange, hcomb texts 0,
      mergeSort_eq_of_perm_enum (List.Perm.refl _) htarget, hsnd]

/-- C4 (confirmed): for every input list and every cache state whose
entries agree with the model, the batch path of `generate_embedding` (with
`use_cache=True`, so the inputs are partitioned into cached and uncached
subsets and only the uncached subset is inferred) returns exactly one
vector per input, in the original input order: the i-th returned vector is
the model's embedding of the i-th input text. -/
theorem batch_embedding_order_c4 (f : List Char → Vec) (cache : EmbCache)
    (normalize : Bool) (texts : List (List Char))
    (hcache : ∀ t v, cacheLookup cache (embedCacheKey t normalize) = some v →
      v = f t) :
    (generateEmbeddingBatch f cache true normalize texts).output
        = texts.map f ∧
      (generateEmbeddingBatch f cache true normalize texts).output.length
        = texts.length :=
  ⟨generateEmbeddingBatch_output f cache true normalize texts hcache,
   by rw [generateEmbeddingBatch_output f cache true normalize texts hcache,
        List.length_map]⟩

/-- C4 witness: two texts, an empty (hence trivially model-consistent)
cache; the output is the model's vectors in input order. -/
theorem batch_embedding_order_c4_witness :
    (generateEmbeddingBatch (fun t => [(t.length : ℚ)]) [] true true
        [chars "x", chars "yz"]).output
      = [chars "x", chars "yz"].map (fun t => [(t.length : ℚ)]) ∧
    (generateEmbeddingBatch (fun t => [(t.length : ℚ)]) [] true true
        [chars "x", chars "yz"]).output.length
      = [chars "x", chars "yz"].length :=
  batch_embedding_order_c4 (fun t => [(t.length : ℚ)]) [] true
    [chars "x", chars "yz"] (by intro t v h; simp [cacheLookup] at h)

/-- The `["a", "b", "a"]` batch of the C3 scenario. -/
def c3Texts : List (List Char) := [chars "a", chars "b", chars "a"]

/-- C3 (counterexample): in a single batch call over `["a", "b", "a"]` with
an empty cache, the cache-check loop runs to completion before any
inference or cache write, so both occurrences of `"a"` miss and
`texts_to_process` contains `"a"` twice — the model infers the unique text
`"a"` twice, not once, and the second occurrence is not served by a cache
hit. -/
theorem batch_duplicate_inference_c3 :
    (generateEmbeddingBatch (fun t => [(t.length : ℚ)]) [] true true
        c3Texts).processed = [chars "a", chars "b", chars "a"] ∧
      (generateEmbeddingBatch (fun t => [(t.length : ℚ)]) [] true true
        c3Texts).processed.count (chars "a") = 2 := by
  constructor
  · rfl
  · rfl

/-- C3 (amended): with no prior cache entry, the batch call sends all three
list entries — including both occurrences of `"a"` — to model inference
(duplicates within one batch are not deduplicated); the returned list still
preserves input order, `[vec(a), vec(b), vec(a)]` with identical vectors at
indices 0 and 2; and the vectors are written back, so `"a"` is served from
the cache only by a later call. -/
theorem batch_duplicate_inference_c3_amended (f : List Char → Vec)
    (normalize : Bool) :
    (generateEmbeddingBatch f [] true normalize c3Texts).processed
        = [chars "a", chars "b", chars "a"] ∧
      (generateEmbeddingBatch f [] true normalize c3Texts).output
        = [f (chars "a"), f (chars "b"), f (chars "a")] ∧
      cacheLookup (generateEmbeddingBatch f [] true normalize c3Texts).cacheAfter
          (embedCacheKey (chars "a") normalize)
        = some (f (chars "a")) := by
  refine ⟨?_, ?_, ?_⟩
  · cases normalize <;> rfl
  · have := generateEmbeddingBatch_output f [] true normalize c3Texts
      (by intro t v h; simp [cacheLookup] at h)
    simpa [c3Texts] using this
  · cases normalize <;> rfl

/- ## `LLMService.generate` and `_fallback_response`
(`backend/app/services/llm.py`) -/

/-- The dict returned by `LLMService.generate` / `_fallback_response`:
generated text, model identifier and token usage. -/
structure GenResult where
  text : List Char
  model : List Char
  promptTokens : Nat
  completionTokens : Nat
  totalTokens : Nat
deriving DecidableEq, Repr

/-- Python's `haystack.find(needle)` scan from index `i` (first match wins;
`-1` is represented as `none`). -/
def findSubstrGo (needle : List Char) : List Char → Nat → Option Nat
  | [], i => if needle.isEmpty then some i else none
  | c :: rest, i =>
      if needle.isPrefixOf (c :: rest) then some i
      else findSubstrGo needle rest (i + 1)

/-- Python's `haystack.find(needle)` (and `needle in haystack` via
`isSome`). -/
def findSubstr (hay needle : List Char) : Option Nat :=
  findSubstrGo needle hay 0

/-- Python's `l[a:b]` for non-negative bounds. -/
def pySlice (l : List Char) (a b : Nat) : List Char := (l.take b).drop a

/-- Python's `s.split(". ")`: split at each non-overlapping, leftmost
occurrence of the two-character separator, keeping empty pieces. -/
def splitDotSpGo : List Char → List Char → List (List Char)
  | '.' :: ' ' :: rest, acc => acc.reverse :: splitDotSpGo rest []
  | c :: rest, acc => splitDotSpGo rest (c :: acc)
  | [], acc => [acc.reverse]

def splitDotSp (l : List Char) : List (List Char) := splitDotSpGo l []

/-- `LLMService._fallback_response(prompt)`: for a RAG prompt (both the
`"Context:"` and `"Question:"` markers present) extract the context slice
between the markers, keep its first three `". "`-separated sentences, and
re-join them; a context carrying `"[Source"` tags is additionally wrapped.
Other prompts receive a fixed generic text.  The model identifier is
`"fallback"` and usage is zero. -/
def fallbackResponse (prompt : List Char) : GenResult :=
  if (findSubstr prompt (chars "Context:")).isSome ∧
      (findSubstr prompt (chars "Question:")).isSome then
    let contextStart := (findSubstr prompt (chars "Context:")).getD 0 + 8
    let questionStart := (findSubstr prompt (chars "Question:")).getD 0
    let context := pyStrip (pySlice prompt contextStart questionStart)
    let sentences := (splitDotSp context).take 3
    let responseText := List.intercalate (chars ". ") sentences ++ ['.']
    let responseText :=
      if (findSubstr responseText (chars "[Source")).isSome then
        chars "Based on the provided documents:\n\n" ++ responseText ++
          chars "\n\n(Note: This is a simplified response. Configure an LLM for better answers.)"
      else responseText
    { text := responseText, model := chars "fallback",
      promptTokens := 0, completionTokens := 0, totalTokens := 0 }
  else
    { text := chars ("I understand you\x27re asking about this topic. " ++
        "However, I need an LLM service configured to provide detailed answers. " ++
        "Please configure OpenAI API or a local LLM server."),
      model := chars "fallback",
      promptTokens := 0, completionTokens := 0, totalTokens := 0 }

/-- `LLMService.generate(prompt, ...)`: `client` is `None` when no backend
is configured; otherwise the chat-completion round trip either raises
(`.error`) or returns generated text with optional usage numbers.  A
missing client or a raised backend error both degrade to
`_fallback_response`; the function is total (never raises to its caller). -/
def llmGenerate (client : Option (Except Unit (List Char × Option (Nat × Nat × Nat))))
    (modelName : List Char) (prompt : List Char) : GenResult :=
  match client with
  | none => fallbackResponse prompt
  | some (.error _) => fallbackResponse prompt
  | some (.ok (generatedText, usage)) =>
      { text := generatedText, model := modelName,
        promptTokens := (usage.map (fun u => u.1)).getD 0,
        completionTokens := (usage.map (fun u => u.2.1)).getD 0,
        totalTokens := (usage.map (fun u => u.2.2)).getD 0 }

/-- The part of the `_build_prompt` template before the `"Context:"`
marker. -/
def promptPreamble : Bool → List Char
  | true =>
    chars ("You are a helpful assistant that answers questions based on the provided context.\n" ++
      "Use the following context to answer the question. If you use information from the context, cite the source by referencing [Source X].\n" ++
      "If the context doesn\x27t contain relevant information, say so.\n\n")
  | false =>
    chars ("You are a helpful assistant that answers questions based on the provided context.\n" ++
      "Use the following context to answer the question.\n" ++
      "If the context doesn\x27t contain relevant information, say so.\n\n")

/-- The part of the `_build_prompt` template after the inserted query. -/
def promptTail : Bool → List Char
  | true => chars "\n\nAnswer (with source citations):"
  | false => chars "\n\nAnswer:"

/-- `RAGService._build_prompt(query, context, include_sources)`; the
template is spelled as an explicit concatenation of its segments around the
inserted context and query (`"...\n\nContext:\n{context}\n\nQuestion:
{query}\n\nAnswer..."`). -/
def buildPrompt (query context : List Char) (includeSources : Bool) : List Char :=
  promptPreamble includeSources ++ chars "Context:" ++ chars "\n" ++ context ++
    chars "\n\n" ++ chars "Question:" ++ chars " " ++ query ++
    promptTail includeSources

theorem findSubstrGo_isSome_of_split (needle : List Char) :
    ∀ (hay : List Char) (i : Nat), (∃ pre suf, hay = pre ++ needle ++ suf) →
      (findSubstrGo needle hay i).isSome = true := by
  intro hay
  induction hay with
  | nil =>
    intro i ⟨pre, suf, hsplit⟩
    have : needle = [] := by
      cases pre <;> cases needle <;> simp_all
    simp [findSubstrGo, this]
  | cons c rest ih =>
    intro i ⟨pre, suf, hsplit⟩
    by_cases hp : needle.isPrefixOf (c :: rest)
    · simp [findSubstrGo, hp]
    · cases pre with
      | nil =>
        exact absurd ( List.isPrefixOf_iff_prefix.mpr ⟨suf, by simpa using hsplit.symm⟩) hp
      | cons p pre' =>
        simp only [List.cons_append, List.cons.injEq] at hsplit
        simp only [findSubstrGo, if_neg hp]
        exact ih (i + 1) ⟨pre', suf, hsplit.2⟩

theorem findSubstr_isSome_of_split {hay needle : List Char}
    (h : ∃ pre suf, hay = pre ++ needle ++ suf) :
    (findSubstr hay needle).isSome = true :=
  findSubstrGo_isSome_of_split needle hay 0 h

/-- Every prompt built by `_build_prompt` contains both RAG markers, so
`_fallback_response` takes the extractive branch on it. -/
theorem buildPrompt_markers (query context : List Char) (includeSources : Bool) :
    (findSubstr (buildPrompt query context includeSources)
        (chars "Context:")).isSome = true ∧
      (findSubstr (buildPrompt query context includeSources)
        (chars "Question:")).isSome = true := by
  constructor
  · exact findSubstr_isSome_of_split
      ⟨promptPreamble includeSources,
       chars "\n" ++ context ++ chars "\n\n" ++ chars "Question:" ++ chars " " ++
         query ++ promptTail includeSources,
       by simp only [buildPrompt, List.append_assoc]⟩
  · exact findSubstr_isSome_of_split
      ⟨promptPreamble includeSources ++ chars "Context:" ++ chars "\n" ++
         context ++ chars "\n\n",
       chars " " ++ query ++ promptTail includeSources,
       by simp only [buildPrompt, List.append_assoc]⟩

/- ## `RAGService.query` / `_retrieve_chunks` / `_prepare_context` /
`_format_sources` (`backend/app/services/rag.py`) -/

/-- A formatted source citation (`_format_sources`). -/
structure Source where
  id : Nat
  documentId : List Char
  documentTitle : List Char
  chunkId : List Char
  textPreview : List Char
  score : ℚ
  pageNum : Option Nat := none
  timestamp : Option ℚ := none
  sectionTag : Option (List Char) := none
deriving DecidableEq, Repr

/-- The response dict of `RAGService.query`.  The token-usage pass-through
(`"usage"`, absent on the no-results path) is not modelled; none of the
verified properties mentions it. -/
structure QueryResponse where
  answer : List Char
  sources : List Source
  chunksUsed : Nat
  modelUsed : Option (List Char)
deriving DecidableEq, Repr

/-- `RAGService._format_sources(chunks)`: 1-based ids, a 200-character text
preview, the rerank score when present (`chunk.get("rerank_score",
chunk["score"])`), and the optional positional metadata attached only when
truthy in Python (`0`, `0.0` and `""` are falsy). -/
def formatSources (chunks : List RChunk) : List Source :=
  chunks.enum.map fun p =>
    { id := p.1 + 1,
      documentId := p.2.documentId,
      documentTitle := p.2.documentTitle,
      chunkId := p.2.chunkId,
      textPreview :=
        if 200 < p.2.text.length then p.2.text.take 200 ++ chars "..."
        else p.2.text,
      score := p.2.rerankScore.getD p.2.score,
      pageNum := p.2.pageNum.bind (fun n => if n = 0 then none else some n),
      timestamp := p.2.timestamp.bind (fun t => if t = 0 then none else some t),
      sectionTag := p.2.sectionTag.bind (fun s => if s.isEmpty then none else some s) }

/-- Python's `f"{t:.1f}"` on a rational timestamp (one decimal digit; the
`.1f` rounding of the underlying binary float is approximated by
round-half-up on the rational). -/
def pyFormat1f (q : ℚ) : List Char :=
  let scaled : ℤ := round (q * 10)
  (if scaled < 0 then ['-'] else []) ++
    pyStrNat (scaled.natAbs / 10) ++ ['.'] ++ pyStrNat (scaled.natAbs % 10)

/-- `RAGService._prepare_context(chunks)`: each chunk under a bracketed
source marker (1-based index, document title, optional page number or
timestamp), joined by blank lines. -/
def prepareContext (chunks : List RChunk) : List Char :=
  List.intercalate (chars "\n\n")
    (chunks.enum.map fun p =>
      let pagePart : List Char :=
        match p.2.pageNum.bind (fun n => if n = 0 then none else some n) with
        | some n => chars ", Page " ++ pyStrNat n
        | none => []
      let tsPart : List Char :=
        match p.2.timestamp.bind (fun t => if t = 0 then none else some t) with
        | some t => chars ", " ++ pyFormat1f t ++ chars "s"
        | none => []
      chars "[Source " ++ pyStrNat (p.1 + 1) ++ chars ": " ++ p.2.documentTitle ++
        pagePart ++ tsPart ++ chars "]" ++ chars "\n" ++ p.2.text)

/-- The document-id scope `_retrieve_chunks` derives from the
`ProjectDocument` rows: `none` when no project is given, otherwise the ids
linked to the project. -/
def scopeOf (projectDocs : List (List Char × List Char))
    (projectId : Option (List Char)) : Option (List (List Char)) :=
  projectId.map fun pid => (projectDocs.filter (fun r => r.1 == pid)).map (fun r => r.2)

/-- `RAGService._retrieve_chunks(query, project_id, top_k)`: an empty
project scope short-circuits to no results without searching; otherwise the
similarity search runs with `top_k * 2` candidates and threshold `0.5`, and
its results are reranked (when enabled) or truncated to `top_k`.  `searchFn`
models `EmbeddingService.search_similar_chunks`, which may raise. -/
def retrieveChunks (st : RagSettings)
    (projectDocs : List (List Char × List Char))
    (searchFn : Option (List (List Char)) → Nat → ℚ → Except Unit (List RChunk))
    (query : List Char) (projectId : Option (List Char)) (topK : Nat) :
    Except Unit (List RChunk) :=
  match scopeOf projectDocs projectId with
  | some ids =>
      if ids.isEmpty then .ok []
      else
        (searchFn (some ids) (topK * 2) (1/2)).bind fun similar =>
          if similar.isEmpty then .ok []
          else if st.rerankEnabled then .ok (rerankChunks st query similar topK)
          else .ok (similar.take topK)
  | none =>
      (searchFn none (topK * 2) (1/2)).bind fun similar =>
        if similar.isEmpty then .ok []
        else if st.rerankEnabled then .ok (rerankChunks st query similar topK)
        else .ok (similar.take topK)

/-- The fixed no-results response of `RAGService.query`. -/
def noInfoResponse : QueryResponse :=
  { answer := chars ("I couldn\x27t find any relevant information in the " ++
      "documents to answer your question."),
    sources := [], chunksUsed := 0, modelUsed := none }

/-- The query-result cache, keyed by `(project_id or "global", cache_key)`
(the namespacing of `CacheService.get_cached_query`). -/
abbrev QueryCache := List ((List Char × List Char) × QueryResponse)

/-- `project_id or "global"` (Python truthiness: `None` and the empty
string both fall back to `"global"`). -/
def queryCacheScope : Option (List Char) → List Char
  | none => chars "global"
  | some s => if s.isEmpty then chars "global" else s

def queryCacheLookup (qc : QueryCache) (sk : List Char × List Char) :
    Option QueryResponse :=
  (qc.find? (fun p => p.1 == sk)).map Prod.snd

/-- `RAGService.query(...)`: cache check, retrieval, the no-results
short-circuit, context assembly, generation and response formatting.  The
post-response cache write does not change the returned value and is not
modelled; `gen` models `LLMService.generate` (which may itself degrade to a
fallback internally). -/
def ragQuery (st : RagSettings)
    (projectDocs : List (List Char × List Char))
    (searchFn : Option (List (List Char)) → Nat → ℚ → Except Unit (List RChunk))
    (gen : List Char → Except Unit GenResult)
    (qcache : QueryCache)
    (query : List Char) (projectId : Option (List Char)) (topK : Nat)
    (temperature : List Char) (maxTokens : Nat)
    (includeSources useCache : Bool) :
    Except Unit QueryResponse :=
  let cacheKey := generateCacheKeyString
    { query := query, projectId := projectId, topK := topK,
      temperature := temperature, maxTokens := maxTokens,
      includeSources := includeSources }
  match
    (if useCache then
      queryCacheLookup qcache (queryCacheScope projectId, cacheKey)
    else none)
  with
  | some cached => .ok cached
  | none =>
      (retrieveChunks st projectDocs searchFn query projectId topK).bind
        fun relevantChunks =>
          if relevantChunks.isEmpty then .ok noInfoResponse
          else
            let context := prepareContext relevantChunks
            let prompt := buildPrompt query context includeSources
            (gen prompt).map fun answer =>
              { answer := answer.text,
                sources := if includeSources then formatSources relevantChunks else [],
                chunksUsed := relevantChunks.length,
                modelUsed := some answer.model }

/-- C6 (confirmed): when the scope resolves to zero documents (a project
with no linked documents skips the search entirely) or to zero retrievable
chunks (the similarity search completes with no results), and no cached
response short-circuits the pipeline, `RAGService.query` returns the
defined no-relevant-information response with `chunks_used = 0` and an
empty sources list — a normal return (`.ok`), not an exception, even if the
generation backend would fail. -/
theorem rag_query_empty_scope_c6 (st : RagSettings)
    (projectDocs : List (List Char × List Char))
    (searchFn : Option (List (List Char)) → Nat → ℚ → Except Unit (List RChunk))
    (gen : List Char → Except Unit GenResult) (qcache : QueryCache)
    (query : List Char) (projectId : Option (List Char)) (topK : Nat)
    (temperature : List Char) (maxTokens : Nat)
    (includeSources useCache : Bool)
    (hmiss : useCache = false ∨
      queryCacheLookup qcache (queryCacheScope projectId,
        generateCacheKeyString
          { query := query, projectId := projectId, topK := topK,
            temperature := temperature, maxTokens := maxTokens,
            includeSources := includeSources }) = none)
    (hempty : scopeOf projectDocs projectId = some [] ∨
      searchFn (scopeOf projectDocs projectId) (topK * 2) (1/2) = .ok []) :
    ragQuery st projectDocs searchFn gen qcache query projectId topK
        temperature maxTokens includeSources useCache
      = .ok noInfoResponse := by
  have hret : retrieveChunks st projectDocs searchFn query projectId topK
      = .ok [] := by
    rcases hempty with hscope | hsearch
    · rw [retrieveChunks, hscope]
      simp
    · rw [retrieveChunks]
      cases hso : scopeOf projectDocs projectId with
      | none =>
        rw [hso] at hsearch
        rw [hsearch]
        rfl
      | some ids =>
        rw [hso] at hsearch
        by_cases hids : ids.isEmpty
        · simp [hids]
        · simp only [if_neg hids, hsearch]
          rfl
  have hcache0 : (if useCache then
      queryCacheLookup qcache (queryCacheScope projectId,
        generateCacheKeyString
          { query := query, projectId := projectId, topK := topK,
            temperature := temperature, maxTokens := maxTokens,
            includeSources := includeSources }) else none) = none := by
    rcases hmiss with huc | hkey
    · rw [huc]; rfl
    · by_cases huc : useCache
      · rw [if_pos huc, hkey]
      · rw [if_neg huc]
  rw [ragQuery, hcache0, hret]
  rfl

/-- C6 witness: a project with zero linked documents, an empty cache, and
collaborators that would raise if reached (both the search and the
generator are the constant error function); the query still returns the
placeholder response normally. -/
theorem rag_query_empty_scope_c6_witness :
    ragQuery { rerankEnabled := true, rerankAlpha := 7/10, rerankBeta := 1/5,
               rerankGamma := 1/10 }
      [] (fun _ _ _ => .error ()) (fun _ => .error ()) []
      (chars "what does the corpus say") (some (chars "p1")) 5
      (chars "0.7") 512 true true
      = .ok noInfoResponse :=
  rag_query_empty_scope_c6 _ [] (fun _ _ _ => .error ()) (fun _ => .error ())
    [] (chars "what does the corpus say") (some (chars "p1")) 5
    (chars "0.7") 512 true true (Or.inr rfl) (Or.inl rfl)

/-- C7 (confirmed): `LLMService.generate` is modelled as a total function —
it returns a value for every prompt and backend outcome.  When the backend
is unavailable (`client = None`) or the generation call raises, it returns
`_fallback_response(prompt)`; every RAG prompt contains the `"Context:"`
and `"Question:"` markers, so that fallback is the extractive one built
from the context section; and a RAG query whose generator degrades this
way still returns the citations obtained from retrieval
(`sources = _format_sources(chunks)`), with the fallback text as the
answer. -/
theorem llm_generate_fallback_c7 :
    (∀ (modelName prompt : List Char),
        llmGenerate none modelName prompt = fallbackResponse prompt) ∧
    (∀ (modelName prompt : List Char) (e : Unit),
        llmGenerate (some (.error e)) modelName prompt = fallbackResponse prompt) ∧
    (∀ (query context : List Char) (inc : Bool),
        (findSubstr (buildPrompt query context inc) (chars "Context:")).isSome = true ∧
        (findSubstr (buildPrompt query context inc) (chars "Question:")).isSome = true) ∧
    (∀ (st : RagSettings) (projectDocs : List (List Char × List Char))
        (searchFn : Option (List (List Char)) → Nat → ℚ → Except Unit (List RChunk))
        (qcache : QueryCache) (query : List Char)
        (projectId : Option (List Char)) (topK : Nat)
        (temperature : List Char) (maxTokens : Nat) (useCache : Bool)
        (modelName : List Char)
        (client : Option (Except Unit (List Char × Option (Nat × Nat × Nat))))
        (relevantChunks : List RChunk),
      (if useCache then
          queryCacheLookup qcache (queryCacheScope projectId,
            generateCacheKeyString
              { query := query, projectId := projectId, topK := topK,
                temperature := temperature, maxTokens := maxTokens,
                includeSources := true }) else none) = none →
      retrieveChunks st projectDocs searchFn query projectId topK
          = .ok relevantChunks →
      relevantChunks ≠ [] →
      (client = none ∨ ∃ e, client = some (.error e)) →
      ragQuery st projectDocs searchFn
          (fun p => .ok (llmGenerate client modelName p)) qcache query
          projectId topK temperature maxTokens true useCache
        = .ok { answer := (fallbackResponse
                  (buildPrompt query (prepareContext relevantChunks) true)).text,
                sources := formatSources relevantChunks,
                chunksUsed := relevantChunks.length,
                modelUsed := some (chars "fallback") }) := by
  have hfail : ∀ (client : Option (Except Unit (List Char × Option (Nat × Nat × Nat))))
      (modelName prompt : List Char),
      (client = none ∨ ∃ e, client = some (.error e)) →
      llmGenerate client modelName prompt = fallbackResponse prompt := by
    intro client modelName prompt hc
    rcases hc with rfl | ⟨e, rfl⟩ <;> rfl
  refine ⟨fun m p => rfl, fun m p e => rfl, buildPrompt_markers, ?_⟩
  intro st projectDocs searchFn qcache query projectId topK temperature
    maxTokens useCache modelName client relevantChunks hcache hret hne hclient
  rw [ragQuery, hcache, hret]
  have hempty : relevantChunks.isEmpty = false := by
    cases relevantChunks with
    | nil => exact absurd rfl hne
    | cons a l => rfl
  simp only [Except.bind, hempty, Bool.false_eq_true, if_false,
    Except.map, hfail client modelName _ hclient]
  have hmodel : (fallbackResponse
      (buildPrompt query (prepareContext relevantChunks) true)).model
      = chars "fallback" := by
    rw [fallbackResponse]
    split <;> rfl
  rw [hmodel]
  simp

/-- C7 witness: with no backend client, a one-chunk retrieval (rerank
disabled) degrades to the extractive fallback while keeping the formatted
citation of the retrieved chunk. -/
theorem llm_generate_fallback_c7_witness :
    ragQuery { rerankEnabled := false, rerankAlpha := 7/10, rerankBeta := 1/5,
               rerankGamma := 1/10 }
      [] (fun _ _ _ => .ok [{ chunkId := chars "c1", documentId := chars "d1",
                              documentTitle := chars "T",
                              text := chars "Facts. More facts.",
                              score := 9/10 }])
      (fun p => .ok (llmGenerate none (chars "gpt") p)) []
      (chars "q") none 5 (chars "0.7") 512 true true
      = .ok { answer := (fallbackResponse
                (buildPrompt (chars "q")
                  (prepareContext
                    [{ chunkId := chars "c1", documentId := chars "d1",
                       documentTitle := chars "T",
                       text := chars "Facts. More facts.",
                       score := 9/10 }]) true)).text,
              sources := formatSources
                [{ chunkId := chars "c1",
                   documentId := chars "d1", documentTitle := chars "T",
                   text := chars "Facts. More facts.", score := 9/10 }],
              chunksUsed := 1,
              modelUsed := some (chars "fallback") } :=
  llm_generate_fallback_c7.2.2.2 _ []
    (fun _ _ _ => .ok [{ chunkId := chars "c1", documentId := chars "d1",
                         documentTitle := chars "T",
                         text := chars "Facts. More facts.",
                         score := 9/10 }])
    [] (chars "q") none 5 (chars "0.7") 512 true (chars "gpt") none
    [{ chunkId := chars "c1", documentId := chars "d1",
       documentTitle := chars "T", text := chars "Facts. More facts.",
       score := 9/10 }]
    rfl rfl (by decide) (Or.inl rfl)

/- ## `CacheService.get` statistics (`backend/app/services/cache.py`) -/

/-- The `cache_stats` counters of `CacheService`. -/
structure CacheStats where
  hits : Nat
  misses : Nat
  sets : Nat
  deletes : Nat
deriving DecidableEq, Repr

/-- One call's environment for `CacheService.get`: whether a backend store
is attached; the backend read outcome (`.error` models a raised backend
exception, `.ok none` models a missing key or falsy data, `.ok (some d)`
truthy data); the `_deserialize` outcome for that data (`.error` models a
raised deserialization exception); and the in-memory lookup result used
when no backend is attached. -/
structure GetEnv (V : Type) where
  backendPresent : Bool
  backendResult : Except Unit (Option Unit)
  deserResult : Except Unit V
  memHit : Option V
deriving Repr

/-- True exactly on the path where the backend returned truthy data (so
`hits` was already incremented inside the `try`) and `_deserialize` then
raised (so the `except` handler increments `misses` as well). -/
def deserFailAfterHit {V : Type} (env : GetEnv V) : Bool :=
  env.backendPresent &&
    (match env.backendResult with | .ok (some _) => true | _ => false) &&
    (match env.deserResult with | .error _ => true | _ => false)

/-- `CacheService.get(key)`: with a backend, a truthy read increments
`hits` and then deserializes (a deserialization error is caught by the
`except` handler, which increments `misses`); a falsy read or a raised
backend error counts a miss.  Without a backend, the in-memory dict is
consulted.  Returns the value (or `none`) and the updated counters. -/
def cacheGet {V : Type} (env : GetEnv V) (s : CacheStats) :
    Option V × CacheStats :=
  if env.backendPresent then
    match env.backendResult with
    | .error _ => (none, { s with misses := s.misses + 1 })
    | .ok none => (none, { s with misses := s.misses + 1 })
    | .ok (some _) =>
        match env.deserResult with
        | .ok v => (some v, { s with hits := s.hits + 1 })
        | .error _ => (none, { s with hits := s.hits + 1, misses := s.misses + 1 })
  else
    match env.memHit with
    | some v => (some v, { s with hits := s.hits + 1 })
    | none => (none, { s with misses := s.misses + 1 })

/-- C10 (counterexample): a `get` in which the backend returns data but its
deserialization raises increments both `hits` and `misses` — two counter
increments for one call, so `hits + misses` can exceed the number of `get`
calls.  Starting from zeroed statistics, one such call yields
`hits = 1` and `misses = 1`. -/
theorem cache_get_double_count_c10 :
    (cacheGet
        ({ backendPresent := true, backendResult := .ok (some ()),
           deserResult := .error (), memHit := none } : GetEnv Nat)
        { hits := 0, misses := 0, sets := 0, deletes := 0 }).2
      = { hits := 1, misses := 1, sets := 0, deletes := 0 } ∧ (1 + 1 : Nat) ≠ 1 := by
  constructor
  · rfl
  · decide

/-- C10 (amended): every call to `CacheService.get` increments at least one
of `hits`/`misses` and leaves the other counters unchanged; it increments
exactly one on every path except a backend hit whose deserialization
fails, where both are incremented.  Hence `hits + misses` grows by one or
two per call (and by exactly one when no such deserialization failure
occurs), so it is at least — not exactly — the number of `get` calls. -/
theorem cache_get_counts_c10_amended {V : Type} (env : GetEnv V)
    (s : CacheStats) :
    (cacheGet env s).2.hits + (cacheGet env s).2.misses
        = s.hits + s.misses + (if deserFailAfterHit env then 2 else 1) ∧
      (cacheGet env s).2.sets = s.sets ∧
      (cacheGet env s).2.deletes = s.deletes := by
  rcases env with ⟨bp, br, dr, mh⟩
  cases bp <;> rcases br with e | od <;> first
    | (cases mh <;> simp [cacheGet, deserFailAfterHit] <;> omega)
    | (rcases od with _ | d <;> rcases dr with e' | v <;>
        cases mh <;> simp [cacheGet, deserFailAfterHit] <;> omega)

end ONLM
